import Mathlib

/- Shallow embedding of the Args command line parsing engine
   (src/Args/cmd_line.hpp).  Tokens and names are lists of characters;
   the polymorphic argument hierarchy is a recursive node type; the
   parse loop, lookup, validation and diagnostics follow the source,
   with the collaborators that live outside cmd_line.hpp modelled from
   the specification. -/

namespace Args

/-- Strings are modelled as lists of characters. -/
abbrev Str := List Char

/-- Convert a Lean string literal to the character list representation. -/
def str (s : String) : Str := s.toList

/-- Argument type tag (ArgIface::type): flag, named argument, or command. -/
inductive ArgType where
  | flag
  | named
  | command
deriving DecidableEq

/-- Modelled from the spec: an Argument Node (ArgIface, missing from src)
has identifying names, a type tag, a value-required flag, a required
flag, and, for commands, a nested child registry. -/
inductive ArgNode where
  | mk (names : List Str) (type : ArgType) (withValue : Bool)
      (required : Bool) (children : List ArgNode)

mutual

/-- Decidable equality of argument nodes. -/
def ArgNode.decEq : (a b : ArgNode) → Decidable (a = b)
  | .mk ns t wv rq ch, .mk ns' t' wv' rq' ch' =>
    if h1 : ns = ns' then
      if h2 : t = t' then
        if h3 : wv = wv' then
          if h4 : rq = rq' then
            match ArgNode.decEqList ch ch' with
            | isTrue h5 => isTrue (by rw [h1, h2, h3, h4, h5])
            | isFalse h5 => isFalse (by intro h; injection h; contradiction)
          else isFalse (by intro h; injection h; contradiction)
        else isFalse (by intro h; injection h; contradiction)
      else isFalse (by intro h; injection h; contradiction)
    else isFalse (by intro h; injection h; contradiction)

/-- Decidable equality of lists of argument nodes. -/
def ArgNode.decEqList : (as bs : List ArgNode) → Decidable (as = bs)
  | [], [] => isTrue rfl
  | [], _ :: _ => isFalse (by intro h; exact absurd h (by simp))
  | _ :: _, [] => isFalse (by intro h; exact absurd h (by simp))
  | a :: as, b :: bs =>
    match ArgNode.decEq a b with
    | isTrue h1 =>
      match ArgNode.decEqList as bs with
      | isTrue h2 => isTrue (by rw [h1, h2])
      | isFalse h2 => isFalse (by intro h; injection h; contradiction)
    | isFalse h1 => isFalse (by intro h; injection h; contradiction)

end

instance : DecidableEq ArgNode := ArgNode.decEq

/-- Identifying names of a node. -/
def ArgNode.names : ArgNode → List Str
  | .mk ns _ _ _ _ => ns

/-- Type tag of a node. -/
def ArgNode.type : ArgNode → ArgType
  | .mk _ t _ _ _ => t

/-- Whether the node expects to consume a following value token. -/
def ArgNode.withValue : ArgNode → Bool
  | .mk _ _ v _ _ => v

/-- Whether the node is marked required. -/
def ArgNode.required : ArgNode → Bool
  | .mk _ _ _ r _ => r

/-- Child nodes of a command. -/
def ArgNode.children : ArgNode → List ArgNode
  | .mk _ _ _ _ ch => ch

/-- Primary display name of a node (ArgIface::name). -/
def ArgNode.name (a : ArgNode) : Str := a.names.headD []

mutual

/-- Modelled from the spec: ArgIface::findArgument (missing from src)
returns the node itself when the name matches one of its identifying
strings; a Command additionally searches its children; otherwise null. -/
def ArgNode.findArgument (a : ArgNode) (nm : Str) : Option ArgNode :=
  match a with
  | .mk ns t wv rq ch =>
    if nm ∈ ns then some (ArgNode.mk ns t wv rq ch)
    else if t = ArgType.command then ArgNode.findInChildren ch nm
    else none

/-- Search a list of child nodes left to right with ArgNode.findArgument. -/
def ArgNode.findInChildren : List ArgNode → Str → Option ArgNode
  | [], _ => none
  | c :: cs, nm =>
    match ArgNode.findArgument c nm with
    | some r => some r
    | none => ArgNode.findInChildren cs nm

end

/-- Modelled from the spec: Command::findChild (missing from src) searches
only the command's own children for a node whose identifying names
contain the given name. -/
def ArgNode.findChild (a : ArgNode) (nm : Str) : Option ArgNode :=
  a.children.find? (fun c => decide (nm ∈ c.names))

/-- Modelled from the spec: details::isArgument (missing from src)
recognizes the long form, a token starting with two dashes. -/
def isArgument : Str → Bool
  | '-' :: '-' :: _ => true
  | _ => false

/-- Modelled from the spec: details::isFlag (missing from src) recognizes
the short form, a token starting with a single dash only. -/
def isFlag (w : Str) : Bool :=
  !isArgument w &&
    match w with
    | '-' :: _ => true
    | _ => false

/-- Fuelled edit distance recursion; the fuel bounds the recursion depth
and never runs out when it starts at the sum of the lengths. -/
def editDistanceFuel : Nat → Str → Str → Nat
  | _, [], ys => ys.length
  | _, xs, [] => xs.length
  | 0, _, _ => 0
  | fuel + 1, x :: xs, y :: ys =>
    if x = y then editDistanceFuel fuel xs ys
    else 1 + min (editDistanceFuel fuel xs ys)
        (min (editDistanceFuel fuel (x :: xs) ys) (editDistanceFuel fuel xs (y :: ys)))

/-- Modelled from the spec: the edit distance underlying the misspelling
heuristic (the spec leaves the metric open and suggests a standard edit
distance with a small fixed threshold). -/
def editDistance (a b : Str) : Nat := editDistanceFuel (a.length + b.length) a b

/-- Modelled from the spec: a candidate counts as a misspelling of a
correct name when both are nonempty and within the distance threshold. -/
def isMisspelledNameCheck (misspelled correct : Str) : Bool :=
  !misspelled.isEmpty && !correct.isEmpty &&
    decide (editDistance misspelled correct ≤ 2)

/-- Identifying strings of a node together with, for a command, the names
of its children. -/
def ArgNode.allNames (a : ArgNode) : List Str :=
  a.names ++
    (if a.type = ArgType.command then (a.children.map ArgNode.names).flatten else [])

/-- Names of a node that the candidate plausibly misspells. -/
def ArgNode.misspelledMatches (a : ArgNode) (nm : Str) : List Str :=
  a.allNames.filter (fun c => isMisspelledNameCheck nm c)

/-- Modelled from the spec: ArgIface::isMisspelledName (missing from src)
appends all of this node's plausible names to the accumulator and
reports whether any matched. -/
def ArgNode.isMisspelledName (a : ArgNode) (nm : Str) (poss : List Str) :
    Bool × List Str :=
  (!(a.misspelledMatches nm).isEmpty, poss ++ a.misspelledMatches nm)

/-- Modelled from the spec: Command::isMisspelledCommand (missing from
src) checks the command's own name and its children's names. -/
def ArgNode.isMisspelledCommand (a : ArgNode) (nm : Str) (poss : List Str) :
    Bool × List Str :=
  a.isMisspelledName nm poss

/-- Command line options (CmdLine::CmdLineOpts). -/
inductive CmdLineOpts where
  | empty
  | commandIsRequired
deriving DecidableEq

/-- The engine's registry: top level argument nodes in registration order
plus the construction option. -/
structure Env where
  args : List ArgNode
  opt : CmdLineOpts
deriving DecidableEq

/-- One recorded process invocation: the node and the value token it
consumed, if any. -/
abbrev Event := ArgNode × Option Str

/-- Mutable parser state: the remaining token context, the active
command, and the trace of process invocations. -/
structure St where
  ctx : List Str
  command : Option ArgNode
  trace : List Event
deriving DecidableEq

/-- Error taxonomy of the parser. -/
inductive PError where
  | unknownArgument (word : Str) (suggestions : List Str)
  | unknownFlag (flag : Str)
  | flagComboValue (word : Str)
  | multipleCommands (first second : Str)
  | missingValue (name : Str)
  | redefinition (name : Str)
  | requiredArgumentMissing (name : Str)
  | missingCommand
deriving DecidableEq

/-- Suggestions carried by an error (only the unknown argument diagnostic
built by printInfoAboutUnknownArgument carries any). -/
def PError.suggestions : PError → List Str
  | .unknownArgument _ s => s
  | _ => []

/-- Prepared for printing string of correct names
(details::formatCorrectNamesString): names joined with " or ". -/
def formatCorrectNamesString (names : List Str) : Str :=
  if names.isEmpty then []
  else (names.foldl
    (fun (acc : Str × Bool) nm =>
      ((if acc.2 then acc.1 else acc.1 ++ str " or ") ++ nm, false))
    ([], true)).1

/-- Human readable message of an error; the texts thrown inside
cmd_line.hpp follow the source, the others are modelled from the spec. -/
def PError.message : PError → Str
  | .unknownArgument w s =>
      if s.isEmpty then str "Unknown argument \"" ++ w ++ str "\"."
      else str "Unknown argument \"" ++ w ++ str "\".\n\nProbably you mean \"" ++
        formatCorrectNamesString s ++ str "\"."
  | .unknownFlag f => str "Unknown argument \"" ++ f ++ str "\"."
  | .flagComboValue w =>
      str "Only last argument in flags combo can be with value. Flags combo is \"" ++
        w ++ str "\"."
  | .multipleCommands a b =>
      str "Only one command can be specified. But you entered \"" ++ a ++
        str "\" and \"" ++ b ++ str "\"."
  | .missingValue n => str "Missing value for argument \"" ++ n ++ str "\"."
  | .redefinition n => str "Redefinition of argument \"" ++ n ++ str "\"."
  | .missingCommand => str "Not specified command."
  | .requiredArgumentMissing n =>
      str "Required argument \"" ++ n ++ str "\" is not specified."

/-- One step of CmdLine::isMisspelledName over a registered node: the
active command is queried with isMisspelledName, any other command with
isMisspelledCommand, every other node with isMisspelledName; the flag
and the accumulated possible names are threaded through. -/
def misspelledStep (cmd : Option ArgNode) (nm : Str)
    (acc : Bool × List Str) (a : ArgNode) : Bool × List Str :=
  if a.type = ArgType.command then
    if some a = cmd then
      ((a.isMisspelledName nm acc.2).1 || acc.1, (a.isMisspelledName nm acc.2).2)
    else
      ((a.isMisspelledCommand nm acc.2).1 || acc.1, (a.isMisspelledCommand nm acc.2).2)
  else
    ((a.isMisspelledName nm acc.2).1 || acc.1, (a.isMisspelledName nm acc.2).2)

/-- CmdLine::isMisspelledName: fold over the registered nodes in
registration order, accumulating possible names. -/
def cmdIsMisspelledName (env : Env) (cmd : Option ArgNode) (nm : Str) :
    Bool × List Str :=
  env.args.foldl (misspelledStep cmd nm) (false, [])

/-- CmdLine::printInfoAboutUnknownArgument: build the unknown argument
error, with suggestions when the misspelling search succeeds. -/
def printInfoAboutUnknownArgument (env : Env) (cmd : Option ArgNode)
    (word : Str) : PError :=
  if (cmdIsMisspelledName env cmd word).1 then
    PError.unknownArgument word (cmdIsMisspelledName env cmd word).2
  else PError.unknownArgument word []

/-- CmdLine::findArgument: scan the top level registry for the first node
whose subtree matches; a matching Command is returned itself; otherwise
fall through to the active command's findChild. -/
def findArgumentNode (env : Env) (cmd : Option ArgNode) (nm : Str) :
    Option ArgNode :=
  match env.args.find? (fun a => (a.findArgument nm).isSome) with
  | some a => if a.type = ArgType.command then some a else a.findArgument nm
  | none =>
    match cmd with
    | some c => c.findChild nm
    | none => none

/-- Modelled from the spec: ArgIface::process (missing from src) consumes
one following value token when the node is value bearing, failing when
the cursor is exhausted or the next token looks like an argument name,
and records the invocation. -/
def processNode (a : ArgNode) (st : St) : Except PError St :=
  if a.withValue then
    match st.ctx with
    | [] => Except.error (PError.missingValue a.name)
    | v :: rest =>
      if isArgument v || isFlag v then Except.error (PError.missingValue a.name)
      else Except.ok
        { ctx := rest, command := st.command, trace := st.trace ++ [(a, some v)] }
  else
    Except.ok
      { ctx := st.ctx, command := st.command, trace := st.trace ++ [(a, none)] }

/-- The short flag combo loop of CmdLine::parse: resolve each single
character flag, reject a value bearing flag in non final position,
process each resolved flag in left to right order. -/
def comboRun (env : Env) (word : Str) : List Char → St → Except (PError × St) St
  | [], st => Except.ok st
  | c :: rest, st =>
    match findArgumentNode env st.command ['-', c] with
    | none => Except.error (PError.unknownFlag ['-', c], st)
    | some a =>
      if !rest.isEmpty && a.withValue then
        Except.error (PError.flagComboValue word, st)
      else
        match processNode a st with
        | Except.error e => Except.error (e, st)
        | Except.ok st' => comboRun env word rest st'

/-- One dispatch of a classified word in CmdLine::parse: the argument
branch, the flag combo branch, and the command or positional branch. -/
def dispatchWord (env : Env) (word : Str) (st : St) : Except (PError × St) St :=
  if isArgument word then
    match findArgumentNode env st.command word with
    | some a =>
      match processNode a st with
      | Except.error e => Except.error (e, st)
      | Except.ok st' => Except.ok st'
    | none => Except.error (printInfoAboutUnknownArgument env st.command word, st)
  else if isFlag word then
    comboRun env word (word.drop 1) st
  else
    match findArgumentNode env st.command word with
    | some t =>
      if t.type = ArgType.command then
        match st.command with
        | some c => Except.error (PError.multipleCommands c.name t.name, st)
        | none =>
          match processNode t { st with command := some t } with
          | Except.error e => Except.error (e, { st with command := some t })
          | Except.ok st' => Except.ok st'
      else
        match processNode t st with
        | Except.error e => Except.error (e, st)
        | Except.ok st' => Except.ok st'
    | none => Except.error (printInfoAboutUnknownArgument env st.command word, st)

/-- Position of the first '=' in a token. -/
def eqPos : Str → Option Nat
  | [] => none
  | c :: cs => if c = '=' then some 0 else (eqPos cs).map (· + 1)

/-- Split a token at the first '=': the name part, and the value part
when it is nonempty. -/
def splitTok (w : Str) : Str × Option Str :=
  match eqPos w with
  | some k =>
    (w.take k, if (w.drop (k + 1)).isEmpty then none else some (w.drop (k + 1)))
  | none => (w, none)

/-- The context after reading token w: the nonempty value half of a
name=value token is prepended onto the rest. -/
def newCtx (w : Str) (rest : List Str) : List Str :=
  match (splitTok w).2 with
  | some v => v :: rest
  | none => rest

/-- Termination measure of the parse loop over the remaining context. -/
def ctxMeasure (ctx : List Str) : Nat :=
  (ctx.map (fun w => w.length + 1)).sum

/-- Outcome of a parse: success or an error, in both cases together with
the engine state reached (the source mutates the engine in place, so the
state at a throw is observable). -/
inductive PResult where
  | ok (st : St)
  | err (e : PError) (st : St)
deriving DecidableEq

/-- Modelled from the spec: register one identifying string into the
shared flag and name accumulator sets, failing on a collision with a
redefinition error. -/
def insertName (fs : List Str × List Str) (s : Str) :
    Except PError (List Str × List Str) :=
  if isFlag s then
    if s ∈ fs.1 then Except.error (PError.redefinition s)
    else Except.ok (fs.1 ++ [s], fs.2)
  else
    if s ∈ fs.2 then Except.error (PError.redefinition s)
    else Except.ok (fs.1, fs.2 ++ [s])

/-- Insert a list of identifying strings in order. -/
def insertAll (ns : List Str) (fs : List Str × List Str) :
    Except PError (List Str × List Str) :=
  ns.foldlM insertName fs

/-- Modelled from the spec: ArgIface::checkCorrectnessBeforeParsing of
one node (missing from src) registers all of the node's identifying
strings, a command's child names included. -/
def nodeCheckBefore (a : ArgNode) (fs : List Str × List Str) :
    Except PError (List Str × List Str) :=
  insertAll a.allNames fs

/-- CmdLine::checkCorrectnessBeforeParsing: check non command nodes first
while collecting the commands, then check the collected commands against
the accumulated flag and name sets. -/
def checkCorrectnessBeforeParsing (env : Env) : Except PError Unit :=
  match env.args.foldlM
      (fun (acc : List ArgNode × (List Str × List Str)) a =>
        if a.type = ArgType.command then Except.ok (acc.1 ++ [a], acc.2)
        else (nodeCheckBefore a acc.2).map (fun fs => (acc.1, fs)))
      (([] : List ArgNode), (([], []) : List Str × List Str)) with
  | Except.error e => Except.error e
  | Except.ok acc =>
    match acc.1.foldlM (fun fs a => nodeCheckBefore a fs) acc.2 with
    | Except.error e => Except.error e
    | Except.ok _ => Except.ok ()

/-- Did the trace record an invocation of the node. -/
def invoked (trace : List Event) (a : ArgNode) : Bool :=
  trace.any (fun ev => decide (ev.1 = a))

/-- Modelled from the spec: ArgIface::checkCorrectnessAfterParsing of one
node (missing from src): a required node that was never invoked fails,
and the active command checks its own children as well. -/
def nodeCheckAfter (st : St) (a : ArgNode) : Except PError Unit :=
  if a.required && !invoked st.trace a then
    Except.error (PError.requiredArgumentMissing a.name)
  else if a.type = ArgType.command ∧ some a = st.command then
    a.children.foldlM
      (fun _ c =>
        if c.required && !invoked st.trace c then
          Except.error (PError.requiredArgumentMissing c.name)
        else Except.ok ())
      ()
  else Except.ok ()

/-- CmdLine::checkCorrectnessAfterParsing: every registered top level
node is checked, then the command is required option is enforced. -/
def checkCorrectnessAfterParsing (env : Env) (st : St) : Except PError Unit :=
  match env.args.foldlM (fun _ a => nodeCheckAfter st a) () with
  | Except.error e => Except.error e
  | Except.ok _ =>
    if env.opt = CmdLineOpts.commandIsRequired ∧ st.command = none then
      Except.error PError.missingCommand
    else Except.ok ()

/-- The dispatch loop of CmdLine::parse: read a token, split it at the
first '=', classify and dispatch the resulting word, and repeat until
the context is exhausted; an error aborts with the state at the throw. -/
def parseLoop (env : Env) (st : St) : PResult :=
  match h : st.ctx with
  | [] => PResult.ok st
  | w :: rest =>
    match h2 : dispatchWord env (splitTok w).1 { st with ctx := newCtx w rest } with
    | Except.error es => PResult.err es.1 es.2
    | Except.ok st' => parseLoop env st'
termination_by ctxMeasure st.ctx
decreasing_by
  have hcons : ∀ (v : Str) (l : List Str),
      ctxMeasure (v :: l) = v.length + 1 + ctxMeasure l := by
    intro v l
    simp [ctxMeasure]
  have hnew : ctxMeasure (newCtx w rest) < ctxMeasure (w :: rest) := by
    rcases hs : (splitTok w).2 with _ | v
    · unfold newCtx
      rw [hs]
      simp only
      rw [hcons]
      omega
    · unfold newCtx
      rw [hs]
      simp only
      have hvlen : v.length < w.length := by
        unfold splitTok at hs
        rcases hk : eqPos w with _ | k
        · rw [hk] at hs
          simp at hs
        · rw [hk] at hs
          simp only at hs
          by_cases he : (w.drop (k + 1)).isEmpty = true
          · simp [he] at hs
          · simp [he] at hs
            have hne : w.drop (k + 1) ≠ [] := by
              intro hcon
              rw [hcon] at he
              simp at he
            have hpos : 0 < (w.drop (k + 1)).length := List.length_pos.mpr hne
            have hlen : (w.drop (k + 1)).length = w.length - (k + 1) :=
              List.length_drop (k + 1) w
            rw [← hs]
            omega
      rw [hcons, hcons]
      omega
  have hproc : ∀ (a : ArgNode) (s s' : St), processNode a s = Except.ok s' →
      ctxMeasure s'.ctx ≤ ctxMeasure s.ctx := by
    intro a s s' hp
    unfold processNode at hp
    split at hp
    · split at hp
      · exact absurd hp (by simp)
      · rename_i v l heq
        split at hp
        · exact absurd hp (by simp)
        · injection hp with hp
          rw [← hp, heq, hcons]
          simp only
          omega
    · injection hp with hp
      rw [← hp]
  have hcombo : ∀ (wd : Str) (cs : List Char) (s s' : St),
      comboRun env wd cs s = Except.ok s' →
      ctxMeasure s'.ctx ≤ ctxMeasure s.ctx := by
    intro wd cs
    induction cs with
    | nil =>
      intro s s' hc
      unfold comboRun at hc
      injection hc with hc
      rw [hc]
    | cons c cs ih =>
      intro s s' hc
      unfold comboRun at hc
      split at hc
      · exact absurd hc (by simp)
      · rename_i a hf
        split at hc
        · exact absurd hc (by simp)
        · split at hc
          · exact absurd hc (by simp)
          · rename_i st1 hp
            exact le_trans (ih _ _ hc) (hproc a s st1 hp)
  have hdisp : ∀ (wd : Str) (s s' : St), dispatchWord env wd s = Except.ok s' →
      ctxMeasure s'.ctx ≤ ctxMeasure s.ctx := by
    intro wd s s' hd
    unfold dispatchWord at hd
    split at hd
    · split at hd
      · rename_i a hf
        split at hd
        · exact absurd hd (by simp)
        · rename_i st1 hp
          injection hd with hd
          rw [← hd]
          exact hproc a s st1 hp
      · exact absurd hd (by simp)
    · split at hd
      · exact hcombo wd _ s s' hd
      · split at hd
        · rename_i t hf
          split at hd
          · split at hd
            · exact absurd hd (by simp)
            · split at hd
              · exact absurd hd (by simp)
              · rename_i st1 hp
                injection hd with hd
                rw [← hd]
                have hle := hproc t { s with command := some t } st1 hp
                simpa using hle
          · split at hd
            · exact absurd hd (by simp)
            · rename_i st1 hp
              injection hd with hd
              rw [← hd]
              exact hproc t s st1 hp
        · exact absurd hd (by simp)
  calc ctxMeasure st'.ctx
      ≤ ctxMeasure (newCtx w rest) := hdisp _ _ _ h2
    _ < ctxMeasure (w :: rest) := hnew
    _ = ctxMeasure st.ctx := by rw [h]

/-- CmdLine::parse: pre parse validation, the dispatch loop, post parse
validation. -/
def parse (env : Env) (tokens : List Str) : PResult :=
  match checkCorrectnessBeforeParsing env with
  | Except.error e => PResult.err e { ctx := tokens, command := none, trace := [] }
  | Except.ok _ =>
    match parseLoop env { ctx := tokens, command := none, trace := [] } with
    | PResult.err e st => PResult.err e st
    | PResult.ok st =>
      match checkCorrectnessAfterParsing env st with
      | Except.error e => PResult.err e st
      | Except.ok _ => PResult.ok st

/-- Example node: flag "-a", no value, not required. -/
def flagA : ArgNode := ArgNode.mk [str "-a"] ArgType.flag false false []

/-- Example node: a second registration of the name "-a". -/
def flagA2 : ArgNode := ArgNode.mk [str "-a"] ArgType.flag true false []

/-- Example node: flag "-v", no value. -/
def flagV : ArgNode := ArgNode.mk [str "-v"] ArgType.flag false false []

/-- Example node: flag "-f", value bearing. -/
def flagF : ArgNode := ArgNode.mk [str "-f"] ArgType.flag true false []

/-- Example node: child flag "--f" of the example command. -/
def childF : ArgNode := ArgNode.mk [str "--f"] ArgType.flag false false []

/-- Example node: command "build" with one child flag. -/
def cmdBuild : ArgNode := ArgNode.mk [str "build"] ArgType.command false false [childF]

/-- Example registry holding only flag "-a". -/
def envA : Env := { args := [flagA], opt := CmdLineOpts.empty }

/-- Example registry holding flags "-v" and "-f". -/
def envVF : Env := { args := [flagV, flagF], opt := CmdLineOpts.empty }

/-- Example registry holding the command "build". -/
def envCmd : Env := { args := [cmdBuild], opt := CmdLineOpts.empty }

/-- Example registry with a duplicated name "-a". -/
def envDup : Env := { args := [flagA, flagA2], opt := CmdLineOpts.empty }

/-- Example registry requiring a command. -/
def envReq : Env := { args := [flagV], opt := CmdLineOpts.commandIsRequired }

/-- Events recorded by the combo loop for a run of resolvable value-less
flags: each character's resolved node, consuming no value. -/
def comboEvents (env : Env) (cmd : Option ArgNode) (cs : List Char) : List Event :=
  cs.filterMap (fun c => (findArgumentNode env cmd ['-', c]).map (fun b => (b, none)))

/-- All misspelling suggestions across the registry, one block per
registered node, in registration order. -/
def suggestionsList (env : Env) (nm : Str) : List Str :=
  (env.args.map (fun a => a.misspelledMatches nm)).flatten

/-- The identifying strings in the order pre parse validation inserts
them: every non command node first, then every command node, each
contributing all of its names in registration order. -/
def checkOrderNames (env : Env) : List Str :=
  (((env.args.filter (fun a => decide (¬ a.type = ArgType.command))) ++
    (env.args.filter (fun a => decide (a.type = ArgType.command)))).map
      ArgNode.allNames).flatten

/-- Membership of a name in the accumulated set it classifies into. -/
def inSets (s : Str) (fs : List Str × List Str) : Prop :=
  if isFlag s then s ∈ fs.1 else s ∈ fs.2

theorem parseLoop_nil (env : Env) (cmd : Option ArgNode) (tr : List Event) :
    parseLoop env ⟨[], cmd, tr⟩ = PResult.ok ⟨[], cmd, tr⟩ := by
  unfold parseLoop
  rfl

theorem parseLoop_cons_err (env : Env) (w : Str) (rest : List Str)
    (cmd : Option ArgNode) (tr : List Event) (es : PError × St)
    (hd : dispatchWord env (splitTok w).1 ⟨newCtx w rest, cmd, tr⟩ = Except.error es) :
    parseLoop env ⟨w :: rest, cmd, tr⟩ = PResult.err es.1 es.2 := by
  conv_lhs => unfold parseLoop
  split
  · rename_i es' h2
    dsimp only at h2
    rw [hd] at h2
    injection h2 with h2
    rw [h2]
  · rename_i st' h2
    dsimp only at h2
    rw [hd] at h2
    exact absurd h2 (by simp)

theorem parseLoop_cons_ok (env : Env) (w : Str) (rest : List Str)
    (cmd : Option ArgNode) (tr : List Event) (st' : St)
    (hd : dispatchWord env (splitTok w).1 ⟨newCtx w rest, cmd, tr⟩ = Except.ok st') :
    parseLoop env ⟨w :: rest, cmd, tr⟩ = parseLoop env st' := by
  conv_lhs => unfold parseLoop
  split
  · rename_i es' h2
    dsimp only at h2
    rw [hd] at h2
    exact absurd h2 (by simp)
  · rename_i st'' h2
    dsimp only at h2
    rw [hd] at h2
    injection h2 with h2
    rw [h2]

theorem parse_after_pre (env : Env) (tokens : List Str)
    (h : checkCorrectnessBeforeParsing env = Except.ok ()) :
    parse env tokens =
      match parseLoop env ⟨tokens, none, []⟩ with
      | PResult.err e st => PResult.err e st
      | PResult.ok st =>
        match checkCorrectnessAfterParsing env st with
        | Except.error e => PResult.err e st
        | Except.ok _ => PResult.ok st := by
  unfold parse
  rw [h]

theorem parse_pre_error (env : Env) (tokens : List Str) (e : PError)
    (h : checkCorrectnessBeforeParsing env = Except.error e) :
    parse env tokens = PResult.err e ⟨tokens, none, []⟩ := by
  unfold parse
  rw [h]

theorem isFlag_isArgument_false (w : Str) (h : isFlag w = true) :
    isArgument w = false := by
  unfold isFlag at h
  rcases ha : isArgument w with _ | _
  · rfl
  · rw [ha] at h
    simp at h

theorem dispatch_flag (env : Env) (w : Str) (st : St) (h : isFlag w = true) :
    dispatchWord env w st = comboRun env w (w.drop 1) st := by
  unfold dispatchWord
  rw [isFlag_isArgument_false w h, h]
  simp

theorem processNode_false (a : ArgNode) (st : St) (h : a.withValue = false) :
    processNode a st = Except.ok ⟨st.ctx, st.command, st.trace ++ [(a, none)]⟩ := by
  unfold processNode
  rw [h]
  simp

theorem processNode_true_ok (a : ArgNode) (v : Str) (r : List Str)
    (cmd : Option ArgNode) (tr : List Event) (h : a.withValue = true)
    (hv1 : isArgument v = false) (hv2 : isFlag v = false) :
    processNode a ⟨v :: r, cmd, tr⟩ = Except.ok ⟨r, cmd, tr ++ [(a, some v)]⟩ := by
  unfold processNode
  rw [h]
  simp [hv1, hv2]

theorem processNode_error_shape (a : ArgNode) (st : St) (e : PError)
    (h : processNode a st = Except.error e) : e = PError.missingValue a.name := by
  unfold processNode at h
  split at h
  · split at h
    · injection h with h
      exact h.symm
    · split at h
      · injection h with h
        exact h.symm
      · exact absurd h (by simp)
  · exact absurd h (by simp)

theorem comboRun_error_suggestions (env : Env) (wd : Str) :
    ∀ (cs : List Char) (st : St) (e : PError) (st' : St),
      comboRun env wd cs st = Except.error (e, st') → e.suggestions = [] := by
  intro cs
  induction cs with
  | nil =>
    intro st e st' h
    unfold comboRun at h
    exact absurd h (by simp)
  | cons c cs ih =>
    intro st e st' h
    unfold comboRun at h
    split at h
    · injection h with h
      injection h with h1 h2
      rw [← h1]
      rfl
    · rename_i a hf
      split at h
      · injection h with h
        injection h with h1 h2
        rw [← h1]
        rfl
      · split at h
        · rename_i e' hp
          injection h with h
          injection h with h1 h2
          rw [← h1, processNode_error_shape a st e' hp]
          rfl
        · rename_i st1 hp
          exact ih st1 e st' h

theorem comboRun_cons_resolved (env : Env) (wd : Str) (c : Char) (cs : List Char)
    (st : St) (b : ArgNode) (hb : findArgumentNode env st.command ['-', c] = some b)
    (hbv : b.withValue = false) :
    comboRun env wd (c :: cs) st =
      comboRun env wd cs ⟨st.ctx, st.command, st.trace ++ [(b, none)]⟩ := by
  conv_lhs => unfold comboRun
  rw [hb]
  simp only [hbv, Bool.and_false, Bool.false_eq_true, if_false]
  rw [processNode_false b st hbv]

theorem comboRun_front_plain (env : Env) (cmd : Option ArgNode) (wd : Str) :
    ∀ (front tail : List Char),
      (∀ c ∈ front, ∃ b, findArgumentNode env cmd ['-', c] = some b ∧
        b.withValue = false) →
      ∀ (ctx0 : List Str) (tr : List Event),
        comboRun env wd (front ++ tail) ⟨ctx0, cmd, tr⟩ =
          comboRun env wd tail ⟨ctx0, cmd, tr ++ comboEvents env cmd front⟩ := by
  intro front
  induction front with
  | nil =>
    intro tail _ ctx0 tr
    simp [comboEvents]
  | cons c front ih =>
    intro tail hres ctx0 tr
    obtain ⟨b, hb, hbv⟩ := hres c (by simp)
    have hrest : ∀ c' ∈ front, ∃ b', findArgumentNode env cmd ['-', c'] = some b' ∧
        b'.withValue = false :=
      fun c' hc' => hres c' (by simp [hc'])
    show comboRun env wd (c :: (front ++ tail)) ⟨ctx0, cmd, tr⟩ = _
    rw [comboRun_cons_resolved env wd c (front ++ tail) ⟨ctx0, cmd, tr⟩ b hb hbv]
    dsimp only
    rw [ih tail hrest ctx0 (tr ++ [(b, none)])]
    have hev : comboEvents env cmd (c :: front) =
        (b, none) :: comboEvents env cmd front := by
      simp [comboEvents, hb]
    rw [hev]
    simp

theorem comboRun_unknown_head (env : Env) (cmd : Option ArgNode) (wd : Str)
    (bad : Char) (after : List Char) (ctx0 : List Str) (tr : List Event)
    (hbad : findArgumentNode env cmd ['-', bad] = none) :
    comboRun env wd (bad :: after) ⟨ctx0, cmd, tr⟩ =
      Except.error (PError.unknownFlag ['-', bad], ⟨ctx0, cmd, tr⟩) := by
  unfold comboRun
  rw [show findArgumentNode env (⟨ctx0, cmd, tr⟩ : St).command ['-', bad] =
    none from hbad]

theorem eqPos_not_mem (w : Str) (h : '=' ∉ w) : eqPos w = none := by
  induction w with
  | nil => rfl
  | cons c cs ih =>
    unfold eqPos
    have hc : ¬ c = '=' := by
      intro hc
      exact h (by rw [hc]; simp)
    rw [if_neg hc, ih (fun hm => h (List.mem_cons_of_mem c hm))]
    rfl

theorem splitTok_no_eq (w : Str) (h : '=' ∉ w) : splitTok w = (w, none) := by
  unfold splitTok
  rw [eqPos_not_mem w h]

theorem newCtx_no_eq (w : Str) (rest : List Str) (h : '=' ∉ w) :
    newCtx w rest = rest := by
  unfold newCtx
  rw [splitTok_no_eq w h]

theorem misspelledStep_eq (cmd : Option ArgNode) (nm : Str) (b : Bool)
    (acc : List Str) (a : ArgNode) :
    misspelledStep cmd nm (b, acc) a =
      (!(a.misspelledMatches nm).isEmpty || b, acc ++ a.misspelledMatches nm) := by
  unfold misspelledStep
  by_cases h1 : a.type = ArgType.command
  · by_cases h2 : some a = cmd
    · simp [h1, h2, ArgNode.isMisspelledName]
    · simp [h1, h2, ArgNode.isMisspelledCommand, ArgNode.isMisspelledName]
  · simp [h1, ArgNode.isMisspelledName]

theorem cmdMisspelled_aux (cmd : Option ArgNode) (nm : Str) :
    ∀ (l : List ArgNode) (b : Bool) (acc : List Str),
      List.foldl (misspelledStep cmd nm) (b, acc) l =
        (b || !((l.map (fun a => a.misspelledMatches nm)).flatten).isEmpty,
          acc ++ (l.map (fun a => a.misspelledMatches nm)).flatten) := by
  intro l
  induction l with
  | nil =>
    intro b acc
    simp
  | cons a l ih =>
    intro b acc
    rw [List.foldl_cons, misspelledStep_eq, ih]
    simp only [Prod.mk.injEq]
    constructor
    · simp only [List.map_cons, List.flatten_cons]
      rcases hm : a.misspelledMatches nm with _ | ⟨x, xs⟩ <;>
        rcases hfl : (List.map (fun a => a.misspelledMatches nm) l).flatten with
          _ | ⟨y, ys⟩ <;> cases b <;> simp
    · simp

theorem cmdMisspelled_eq (env : Env) (cmd : Option ArgNode) (nm : Str) :
    cmdIsMisspelledName env cmd nm =
      (!(suggestionsList env nm).isEmpty, suggestionsList env nm) := by
  unfold cmdIsMisspelledName suggestionsList
  rw [cmdMisspelled_aux]
  simp

theorem printInfo_eq (env : Env) (cmd : Option ArgNode) (w : Str) :
    printInfoAboutUnknownArgument env cmd w =
      PError.unknownArgument w
        (if (suggestionsList env w).isEmpty then [] else suggestionsList env w) := by
  unfold printInfoAboutUnknownArgument
  rw [cmdMisspelled_eq]
  rcases h : (suggestionsList env w).isEmpty with _ | _ <;> simp [h]

theorem dispatch_unresolved (env : Env) (st : St) (w : Str)
    (hf : isFlag w = false) (hres : findArgumentNode env st.command w = none) :
    dispatchWord env w st =
      Except.error (printInfoAboutUnknownArgument env st.command w, st) := by
  unfold dispatchWord
  by_cases ha : isArgument w = true
  · simp [ha, hres]
  · rw [Bool.not_eq_true] at ha
    simp [ha, hf, hres]

/-- Claim C1 (amended): when a character of a short flag combo fails to
resolve, parse fails with the unknown argument error naming that flag
immediately; however the flags at earlier positions have already been
processed, so the combo is applied partially up to the failing
character. -/
theorem c1_amended_theorem (env : Env) (cmd : Option ArgNode)
    (front : List Char) (bad : Char) (after : List Char) (w : Str)
    (hw : w = '-' :: (front ++ bad :: after)) (hflag : isFlag w = true)
    (hfront : ∀ c ∈ front, ∃ b, findArgumentNode env cmd ['-', c] = some b ∧
      b.withValue = false)
    (hbad : findArgumentNode env cmd ['-', bad] = none) :
    (∀ (ctx0 : List Str) (tr : List Event), dispatchWord env w ⟨ctx0, cmd, tr⟩ =
      Except.error (PError.unknownFlag ['-', bad],
        ⟨ctx0, cmd, tr ++ comboEvents env cmd front⟩))
  ∧ (cmd = none → '=' ∉ w → checkCorrectnessBeforeParsing env = Except.ok () →
      ∀ rest, parse env (w :: rest) =
        PResult.err (PError.unknownFlag ['-', bad])
          ⟨rest, none, comboEvents env none front⟩) := by
  have hdisp : ∀ (ctx0 : List Str) (tr : List Event),
      dispatchWord env w ⟨ctx0, cmd, tr⟩ =
        Except.error (PError.unknownFlag ['-', bad],
          ⟨ctx0, cmd, tr ++ comboEvents env cmd front⟩) := by
    intro ctx0 tr
    rw [dispatch_flag env w _ hflag]
    have hdrop : w.drop 1 = front ++ bad :: after := by
      rw [hw]
      rfl
    rw [hdrop]
    rw [comboRun_front_plain env cmd w front (bad :: after) hfront ctx0 tr]
    exact comboRun_unknown_head env cmd w bad after ctx0
      (tr ++ comboEvents env cmd front) hbad
  refine ⟨hdisp, ?_⟩
  intro hcmd heq hpre rest
  subst hcmd
  rw [parse_after_pre env (w :: rest) hpre]
  rw [parseLoop_cons_err env w rest none []
    (PError.unknownFlag ['-', bad], ⟨rest, none, [] ++ comboEvents env none front⟩) ?hd]
  · simp
  case hd =>
    rw [splitTok_no_eq w heq, newCtx_no_eq w rest heq]
    exact hdisp rest []

/-- Claim C1 counterexample: with only the flag "-a" registered, parsing
the combo token "-ab" fails with the unknown argument error for "-b",
but the trace shows that "-a" was already processed, refuting the no
partial application part of the claim. -/
theorem c1_counterexample :
    parse envA [str "-ab"] =
      PResult.err (PError.unknownFlag (str "-b")) ⟨[], none, [(flagA, none)]⟩ ∧
    ([((flagA : ArgNode), (none : Option Str))] : List Event) ≠ [] := by
  constructor
  · rw [parse_after_pre envA [str "-ab"] rfl]
    rw [parseLoop_cons_err envA (str "-ab") [] none []
      (PError.unknownFlag (str "-b"), ⟨[], none, [(flagA, none)]⟩) rfl]
  · simp

/-- Claim C1 (amended) witness: concrete instance of the amended
theorem on the registry with the single flag "-a" and the token "-ab". -/
theorem c1_amended_witness :
    findArgumentNode envA none (str "-a") = some flagA ∧
    findArgumentNode envA none (str "-b") = none ∧
    dispatchWord envA (str "-ab") ⟨[], none, []⟩ =
      Except.error (PError.unknownFlag (str "-b"), ⟨[], none, [(flagA, none)]⟩) := by
  refine ⟨rfl, rfl, ?_⟩
  have h := (c1_amended_theorem envA none ['a'] 'b' [] (str "-ab") rfl rfl
    (by
      intro c hc
      have hc' : c = 'a' := by simpa using hc
      rw [hc']
      exact ⟨flagA, rfl, rfl⟩)
    rfl).1 [] []
  exact h

/-- Claim C2 (amended): an unresolved token dispatched in the argument
branch or in the command or positional branch raises the unknown
argument diagnostic, which carries the collected misspelling suggestions
whenever the misspelling search succeeds; an unresolved single character
flag inside a short flag combo instead raises a plain unknown argument
error that never carries suggestions. -/
theorem c2_amended_theorem (env : Env) (st : St) (word : Str) :
    (isFlag word = true → ∀ (e : PError) (st' : St),
        dispatchWord env word st = Except.error (e, st') → e.suggestions = [])
  ∧ (isFlag word = false → findArgumentNode env st.command word = none →
      dispatchWord env word st =
        Except.error (printInfoAboutUnknownArgument env st.command word, st)
      ∧ ((cmdIsMisspelledName env st.command word).1 = true →
          (printInfoAboutUnknownArgument env st.command word).suggestions =
            (cmdIsMisspelledName env st.command word).2 ∧
          (printInfoAboutUnknownArgument env st.command word).suggestions ≠ [])) := by
  constructor
  · intro hf e st' hd
    rw [dispatch_flag env word st hf] at hd
    exact comboRun_error_suggestions env word (word.drop 1) st e st' hd
  · intro hf hres
    refine ⟨dispatch_unresolved env st word hf hres, ?_⟩
    intro htrue
    rw [cmdMisspelled_eq] at htrue
    have hne : (suggestionsList env word).isEmpty = false := by
      simpa using htrue
    rw [printInfo_eq, cmdMisspelled_eq, hne]
    rcases hLe : suggestionsList env word with _ | ⟨x, xs⟩
    · rw [hLe] at hne
      simp at hne
    · simp [PError.suggestions]

/-- Claim C2 counterexample: with flag "-a" registered, the token "-x"
is within the misspelling threshold of "-a", yet parsing "-x" goes
through the flag combo branch and raises a plain unknown argument error
that carries no suggestions, refuting the claim for combo tokens. -/
theorem c2_counterexample :
    parse envA [str "-x"] =
      PResult.err (PError.unknownFlag (str "-x")) ⟨[], none, []⟩ ∧
    (PError.unknownFlag (str "-x")).suggestions = [] ∧
    (cmdIsMisspelledName envA none (str "-x")).1 = true := by
  refine ⟨?_, rfl, rfl⟩
  rw [parse_after_pre envA [str "-x"] rfl]
  rw [parseLoop_cons_err envA (str "-x") [] none []
    (PError.unknownFlag (str "-x"), ⟨[], none, []⟩) rfl]

/-- Claim C2 (amended) witness: concrete instance showing the flag combo
branch raising a suggestion free error on the unknown flag "-x". -/
theorem c2_amended_witness :
    dispatchWord envA (str "-x") ⟨[], none, []⟩ =
      Except.error (PError.unknownFlag (str "-x"), ⟨[], none, []⟩) ∧
    (PError.unknownFlag (str "-x")).suggestions = [] := by
  have hd : dispatchWord envA (str "-x") ⟨[], none, []⟩ =
      Except.error (PError.unknownFlag (str "-x"), ⟨[], none, []⟩) := rfl
  exact ⟨hd, (c2_amended_theorem envA ⟨[], none, []⟩ (str "-x")).1 rfl
    (PError.unknownFlag (str "-x")) ⟨[], none, []⟩ hd⟩

theorem comboRun_nonfinal_value (env : Env) (cmd : Option ArgNode) (wd : Str) :
    ∀ (pre : List Char) (x : Char) (suf : List Char),
      (∀ c ∈ pre, ∃ b, findArgumentNode env cmd ['-', c] = some b) →
      suf ≠ [] →
      (∃ b, findArgumentNode env cmd ['-', x] = some b ∧ b.withValue = true) →
      ∀ (ctx0 : List Str) (tr : List Event), ∃ st',
        comboRun env wd (pre ++ x :: suf) ⟨ctx0, cmd, tr⟩ =
          Except.error (PError.flagComboValue wd, st') := by
  intro pre
  induction pre with
  | nil =>
    intro x suf _ hsuf hx ctx0 tr
    obtain ⟨b, hb, hbv⟩ := hx
    refine ⟨⟨ctx0, cmd, tr⟩, ?_⟩
    show comboRun env wd (x :: suf) ⟨ctx0, cmd, tr⟩ = _
    conv_lhs => unfold comboRun
    rw [show findArgumentNode env (⟨ctx0, cmd, tr⟩ : St).command ['-', x] =
      some b from hb]
    rcases suf with _ | ⟨s, ss⟩
    · exact absurd rfl hsuf
    · simp [hbv]
  | cons c pre ih =>
    intro x suf hres hsuf hx ctx0 tr
    obtain ⟨b0, hb0⟩ := hres c (by simp)
    by_cases hv : b0.withValue = true
    · refine ⟨⟨ctx0, cmd, tr⟩, ?_⟩
      show comboRun env wd (c :: (pre ++ x :: suf)) ⟨ctx0, cmd, tr⟩ = _
      conv_lhs => unfold comboRun
      rw [show findArgumentNode env (⟨ctx0, cmd, tr⟩ : St).command ['-', c] =
        some b0 from hb0]
      have hne : (pre ++ x :: suf).isEmpty = false := by
        rcases pre with _ | ⟨p, ps⟩ <;> rfl
      simp [hv, hne]
    · have hv' : b0.withValue = false := by simpa using hv
      obtain ⟨st', hst'⟩ := ih x suf (fun c' hc' => hres c' (by simp [hc'])) hsuf hx
        ctx0 (tr ++ [(b0, none)])
      refine ⟨st', ?_⟩
      show comboRun env wd (c :: (pre ++ x :: suf)) ⟨ctx0, cmd, tr⟩ = _
      rw [comboRun_cons_resolved env wd c (pre ++ x :: suf) ⟨ctx0, cmd, tr⟩ b0 hb0 hv']
      dsimp only
      exact hst'

theorem comboRun_last_value (env : Env) (cmd : Option ArgNode) (wd : Str)
    (lastc : Char) (a : ArgNode) (ha : findArgumentNode env cmd ['-', lastc] = some a)
    (hav : a.withValue = true) (v : Str) (r : List Str) (tr : List Event)
    (hv1 : isArgument v = false) (hv2 : isFlag v = false) :
    comboRun env wd [lastc] ⟨v :: r, cmd, tr⟩ =
      Except.ok ⟨r, cmd, tr ++ [(a, some v)]⟩ := by
  conv_lhs => unfold comboRun
  rw [show findArgumentNode env ((⟨v :: r, cmd, tr⟩ : St)).command ['-', lastc] =
    some a from ha]
  simp only [List.isEmpty_nil, Bool.not_true, Bool.false_and, Bool.false_eq_true,
    if_false]
  rw [processNode_true_ok a v r cmd tr hav hv1 hv2]
  rfl

/-- Claim C3: within a short flag combo whose characters all resolve, a
value bearing flag at any non final position makes the dispatch fail
with the flag combo value error, regardless of the remaining context;
when instead every non final flag is value free and the final flag is
value bearing, the whole combo is processed and the final flag consumes
exactly one following value token. -/
theorem c3_theorem (env : Env) (cmd : Option ArgNode) (w : Str) (cs : List Char)
    (hw : w = '-' :: cs) (hflag : isFlag w = true) :
    (∀ pre x suf, cs = pre ++ x :: suf → suf ≠ [] →
      (∀ c ∈ pre, ∃ b, findArgumentNode env cmd ['-', c] = some b) →
      (∃ b, findArgumentNode env cmd ['-', x] = some b ∧ b.withValue = true) →
      ∀ (ctx0 : List Str) (tr : List Event), ∃ st',
        dispatchWord env w ⟨ctx0, cmd, tr⟩ =
          Except.error (PError.flagComboValue w, st'))
  ∧ (∀ front lastc a, cs = front ++ [lastc] →
      (∀ c ∈ front, ∃ b, findArgumentNode env cmd ['-', c] = some b ∧
        b.withValue = false) →
      findArgumentNode env cmd ['-', lastc] = some a → a.withValue = true →
      ∀ (v : Str) (r : List Str) (tr : List Event),
        isArgument v = false → isFlag v = false →
        dispatchWord env w ⟨v :: r, cmd, tr⟩ =
          Except.ok ⟨r, cmd, tr ++ (comboEvents env cmd front ++ [(a, some v)])⟩) := by
  have hdrop : w.drop 1 = cs := by
    rw [hw]
    rfl
  constructor
  · intro pre x suf hcs hsuf hres hx ctx0 tr
    obtain ⟨st', hst'⟩ := comboRun_nonfinal_value env cmd w pre x suf hres hsuf hx ctx0 tr
    refine ⟨st', ?_⟩
    rw [dispatch_flag env w _ hflag, hdrop, hcs]
    exact hst'
  · intro front lastc a hcs hfront ha hav v r tr hv1 hv2
    rw [dispatch_flag env w _ hflag, hdrop, hcs]
    rw [comboRun_front_plain env cmd w front [lastc] hfront (v :: r) tr]
    rw [comboRun_last_value env cmd w lastc a ha hav v r
      (tr ++ comboEvents env cmd front) hv1 hv2]
    rw [List.append_assoc]

/-- Claim C3 witness: with flags "-v" (value free) and "-f" (value
bearing) registered, dispatching the combo "-vf" with the token
"file.txt" following processes both flags and binds "file.txt" to "-f". -/
theorem c3_witness :
    findArgumentNode envVF none (str "-f") = some flagF ∧ flagF.withValue = true ∧
    dispatchWord envVF (str "-vf") ⟨[str "file.txt"], none, []⟩ =
      Except.ok ⟨[], none, [(flagV, none), (flagF, some (str "file.txt"))]⟩ := by
  refine ⟨rfl, rfl, ?_⟩
  have h := (c3_theorem envVF none (str "-vf") ['v', 'f'] rfl rfl).2 ['v'] 'f' flagF rfl
    (by
      intro c hc
      have hc' : c = 'v' := by simpa using hc
      rw [hc']
      exact ⟨flagV, rfl, rfl⟩)
    rfl rfl (str "file.txt") [] [] rfl rfl
  exact h

theorem eqPos_append (nm v : Str) (h : '=' ∉ nm) :
    eqPos (nm ++ '=' :: v) = some nm.length := by
  induction nm with
  | nil => simp [eqPos]
  | cons c cs ih =>
    have hc : ¬ c = '=' := fun hc => h (by rw [hc]; simp)
    have h' : '=' ∉ cs := fun hm => h (List.mem_cons_of_mem c hm)
    rw [List.cons_append]
    unfold eqPos
    rw [if_neg hc, ih h']
    rfl

theorem take_prefix_append (nm v : Str) : (nm ++ '=' :: v).take nm.length = nm := by
  rw [List.take_left]

theorem drop_after_eq (nm v : Str) : (nm ++ '=' :: v).drop (nm.length + 1) = v := by
  have h1 : (nm ++ '=' :: v).drop (nm.length + 1) =
      ((nm ++ '=' :: v).drop nm.length).drop 1 := by
    rw [List.drop_drop]
  rw [h1, List.drop_left]
  rfl

theorem splitTok_mid (nm v : Str) (h : '=' ∉ nm) (hv : v ≠ []) :
    splitTok (nm ++ '=' :: v) = (nm, some v) := by
  unfold splitTok
  rw [eqPos_append nm v h]
  dsimp only
  rw [take_prefix_append, drop_after_eq]
  rcases v with _ | ⟨y, ys⟩
  · exact absurd rfl hv
  · rfl

theorem splitTok_eq_empty (nm : Str) (h : '=' ∉ nm) :
    splitTok (nm ++ ['=']) = (nm, none) := by
  unfold splitTok
  rw [show nm ++ ['='] = nm ++ '=' :: ([] : Str) from rfl]
  rw [eqPos_append nm [] h]
  dsimp only
  rw [take_prefix_append, drop_after_eq]
  rfl

theorem newCtx_mid (nm v : Str) (rest : List Str) (h : '=' ∉ nm) (hv : v ≠ []) :
    newCtx (nm ++ '=' :: v) rest = v :: rest := by
  unfold newCtx
  rw [splitTok_mid nm v h hv]

theorem newCtx_eq_empty (nm : Str) (rest : List Str) (h : '=' ∉ nm) :
    newCtx (nm ++ ['=']) rest = rest := by
  unfold newCtx
  rw [splitTok_eq_empty nm h]

/-- Claim C4 (amended): for a token of the form name=value with nonempty
value that is read and classified by the dispatch loop, parsing is
identical to parsing the two separate tokens name and value; the
original claim fails for a name=value token consumed whole as the value
of a preceding value bearing argument. -/
theorem c4_amended_theorem (env : Env) (nm v : Str) (rest : List Str)
    (cmd : Option ArgNode) (tr : List Event) (h : '=' ∉ nm) (hv : v ≠ []) :
    parseLoop env ⟨(nm ++ '=' :: v) :: rest, cmd, tr⟩ =
      parseLoop env ⟨nm :: v :: rest, cmd, tr⟩ := by
  have h1 : (splitTok (nm ++ '=' :: v)).1 = nm := by
    rw [splitTok_mid nm v h hv]
  have h2 : newCtx (nm ++ '=' :: v) rest = v :: rest := newCtx_mid nm v rest h hv
  have h3 : (splitTok nm).1 = nm := by
    rw [splitTok_no_eq nm h]
  have h4 : newCtx nm (v :: rest) = v :: rest := newCtx_no_eq nm (v :: rest) h
  rcases hd : dispatchWord env nm ⟨v :: rest, cmd, tr⟩ with es | st'
  · rw [parseLoop_cons_err env (nm ++ '=' :: v) rest cmd tr es
      (by rw [h1, h2]; exact hd)]
    rw [parseLoop_cons_err env nm (v :: rest) cmd tr es
      (by rw [h3, h4]; exact hd)]
  · rw [parseLoop_cons_ok env (nm ++ '=' :: v) rest cmd tr st'
      (by rw [h1, h2]; exact hd)]
    rw [parseLoop_cons_ok env nm (v :: rest) cmd tr st'
      (by rw [h3, h4]; exact hd)]

/-- Claim C4 counterexample: with the value bearing flag "-f" registered,
the token list with "-f" followed by "a=b" parses successfully, binding
the whole token "a=b" as the value of "-f"; replacing "a=b" by the two
tokens "a" and "b" makes "-f" consume "a" and parsing then fails on the
unknown token "b", so the two lists do not behave identically. -/
theorem c4_counterexample :
    parse envVF [str "-f", str "a=b"] =
      PResult.ok ⟨[], none, [(flagF, some (str "a=b"))]⟩ ∧
    parse envVF [str "-f", str "a", str "b"] =
      PResult.err (PError.unknownArgument (str "b") [str "-v", str "-f"])
        ⟨[], none, [(flagF, some (str "a"))]⟩ ∧
    parse envVF [str "-f", str "a=b"] ≠ parse envVF [str "-f", str "a", str "b"] := by
  have e1 : parse envVF [str "-f", str "a=b"] =
      PResult.ok ⟨[], none, [(flagF, some (str "a=b"))]⟩ := by
    rw [parse_after_pre envVF _ rfl]
    rw [parseLoop_cons_ok envVF (str "-f") [str "a=b"] none []
      ⟨[], none, [(flagF, some (str "a=b"))]⟩ rfl]
    rw [parseLoop_nil]
    rfl
  have e2 : parse envVF [str "-f", str "a", str "b"] =
      PResult.err (PError.unknownArgument (str "b") [str "-v", str "-f"])
        ⟨[], none, [(flagF, some (str "a"))]⟩ := by
    rw [parse_after_pre envVF _ rfl]
    rw [parseLoop_cons_ok envVF (str "-f") [str "a", str "b"] none []
      ⟨[str "b"], none, [(flagF, some (str "a"))]⟩ rfl]
    rw [parseLoop_cons_err envVF (str "b") [] none [(flagF, some (str "a"))]
      (PError.unknownArgument (str "b") [str "-v", str "-f"],
        ⟨[], none, [(flagF, some (str "a"))]⟩) rfl]
  refine ⟨e1, e2, ?_⟩
  rw [e1, e2]
  simp

/-- Claim C4 (amended) witness: concrete instance of the amended claim
on the token "-a=1" against the pair "-a", "1". -/
theorem c4_amended_witness :
    ('=' ∉ str "-a") ∧ str "1" ≠ [] ∧
    parseLoop envA ⟨[str "-a=1"], none, []⟩ =
      parseLoop envA ⟨[str "-a", str "1"], none, []⟩ := by
  refine ⟨by decide, by decide, ?_⟩
  exact c4_amended_theorem envA (str "-a") (str "1") [] none [] (by decide) (by decide)

/-- Claim C8: a token whose text after its first '=' is empty is simply
truncated to the part before the '=': the split yields no value part,
nothing is pushed back onto the cursor, and parsing the token is the
same as parsing the truncated word. -/
theorem c8_theorem (env : Env) (nm : Str) (rest : List Str)
    (cmd : Option ArgNode) (tr : List Event) (h : '=' ∉ nm) :
    splitTok (nm ++ ['=']) = (nm, none) ∧
    newCtx (nm ++ ['=']) rest = rest ∧
    parseLoop env ⟨(nm ++ ['=']) :: rest, cmd, tr⟩ =
      parseLoop env ⟨nm :: rest, cmd, tr⟩ := by
  have h1 : (splitTok (nm ++ ['='])).1 = nm := by
    rw [splitTok_eq_empty nm h]
  have h2 : newCtx (nm ++ ['=']) rest = rest := newCtx_eq_empty nm rest h
  have h3 : (splitTok nm).1 = nm := by
    rw [splitTok_no_eq nm h]
  have h4 : newCtx nm rest = rest := newCtx_no_eq nm rest h
  refine ⟨splitTok_eq_empty nm h, h2, ?_⟩
  rcases hd : dispatchWord env nm ⟨rest, cmd, tr⟩ with es | st'
  · rw [parseLoop_cons_err env (nm ++ ['=']) rest cmd tr es
      (by rw [h1, h2]; exact hd)]
    rw [parseLoop_cons_err env nm rest cmd tr es (by rw [h3, h4]; exact hd)]
  · rw [parseLoop_cons_ok env (nm ++ ['=']) rest cmd tr st'
      (by rw [h1, h2]; exact hd)]
    rw [parseLoop_cons_ok env nm rest cmd tr st' (by rw [h3, h4]; exact hd)]

/-- Claim C8 witness: concrete instance on the token "-a=" against the
truncated token "-a". -/
theorem c8_witness :
    ('=' ∉ str "-a") ∧
    parseLoop envA ⟨[str "-a="], none, []⟩ = parseLoop envA ⟨[str "-a"], none, []⟩ := by
  refine ⟨by decide, ?_⟩
  exact (c8_theorem envA (str "-a") [] none [] (by decide)).2.2

theorem insertAll_cons (x : Str) (l : List Str) (fs : List Str × List Str) :
    insertAll (x :: l) fs =
      match insertName fs x with
      | Except.error e => Except.error e
      | Except.ok fs' => insertAll l fs' := by
  unfold insertAll
  rw [List.foldlM_cons]
  rcases h : insertName fs x with e | fs'
  · rfl
  · rfl

theorem insertAll_append (xs : List Str) : ∀ (ys : List Str) (fs : List Str × List Str),
    insertAll (xs ++ ys) fs =
      match insertAll xs fs with
      | Except.error e => Except.error e
      | Except.ok fs' => insertAll ys fs' := by
  induction xs with
  | nil =>
    intro ys fs
    rfl
  | cons x xs ih =>
    intro ys fs
    rw [List.cons_append, insertAll_cons, insertAll_cons]
    rcases h : insertName fs x with e | fs'
    · rfl
    · exact ih ys fs'

theorem checkBefore_aux1 :
    ∀ (l : List ArgNode) (cmds : List ArgNode) (fs : List Str × List Str),
      List.foldlM
        (fun (acc : List ArgNode × (List Str × List Str)) a =>
          if a.type = ArgType.command then Except.ok (acc.1 ++ [a], acc.2)
          else (nodeCheckBefore a acc.2).map (fun fs => (acc.1, fs)))
        (cmds, fs) l =
      match insertAll (((l.filter (fun a => decide (¬ a.type = ArgType.command))).map
          ArgNode.allNames).flatten) fs with
      | Except.error e => Except.error e
      | Except.ok fs' =>
          Except.ok (cmds ++ l.filter (fun a => decide (a.type = ArgType.command)), fs') := by
  intro l
  induction l with
  | nil =>
    intro cmds fs
    have h0 : insertAll ((((([] : List ArgNode)).filter
        (fun a => decide (¬ a.type = ArgType.command))).map
        ArgNode.allNames).flatten) fs = Except.ok fs := rfl
    rw [h0]
    show Except.ok (cmds, fs) = Except.ok (cmds ++ [], fs)
    simp
  | cons a l ih =>
    intro cmds fs
    rw [List.foldlM_cons]
    dsimp only
    by_cases hcmd : a.type = ArgType.command
    · simp only [hcmd, if_true]
      have hf1 : (a :: l).filter (fun a => decide (¬ a.type = ArgType.command)) =
          l.filter (fun a => decide (¬ a.type = ArgType.command)) := by
        simp [List.filter_cons, hcmd]
      have hf2 : (a :: l).filter (fun a => decide (a.type = ArgType.command)) =
          a :: l.filter (fun a => decide (a.type = ArgType.command)) := by
        simp [List.filter_cons, hcmd]
      rw [hf1, hf2]
      have ih' := ih (cmds ++ [a]) fs
      rw [List.append_assoc, List.singleton_append] at ih'
      exact ih'
    · simp only [hcmd, if_false]
      have hf1 : (a :: l).filter (fun a => decide (¬ a.type = ArgType.command)) =
          a :: l.filter (fun a => decide (¬ a.type = ArgType.command)) := by
        simp [List.filter_cons, hcmd]
      rw [hf1, List.map_cons, List.flatten_cons, insertAll_append]
      have hf2 : (a :: l).filter (fun a => decide (a.type = ArgType.command)) =
          l.filter (fun a => decide (a.type = ArgType.command)) := by
        simp [List.filter_cons, hcmd]
      rw [hf2]
      rcases hnb : nodeCheckBefore a fs with e | fs1
      · have h1 : insertAll a.allNames fs = Except.error e := hnb
        rw [h1]
        rfl
      · have h1 : insertAll a.allNames fs = Except.ok fs1 := hnb
        rw [h1]
        exact ih cmds fs1

theorem checkBefore_aux2 :
    ∀ (cmds : List ArgNode) (fs : List Str × List Str),
      List.foldlM (fun fs a => nodeCheckBefore a fs) fs cmds =
        insertAll ((cmds.map ArgNode.allNames).flatten) fs := by
  intro cmds
  induction cmds with
  | nil =>
    intro fs
    rfl
  | cons a cmds ih =>
    intro fs
    rw [List.foldlM_cons, List.map_cons, List.flatten_cons, insertAll_append]
    rcases hnb : nodeCheckBefore a fs with e | fs1
    · have h1 : insertAll a.allNames fs = Except.error e := hnb
      rw [h1]
      rfl
    · have h1 : insertAll a.allNames fs = Except.ok fs1 := hnb
      rw [h1]
      exact ih fs1

theorem checkBefore_eq (env : Env) :
    checkCorrectnessBeforeParsing env =
      match insertAll (checkOrderNames env) ([], []) with
      | Except.error e => Except.error e
      | Except.ok _ => Except.ok () := by
  unfold checkCorrectnessBeforeParsing
  rw [checkBefore_aux1 env.args [] ([], [])]
  have horder : checkOrderNames env =
      ((env.args.filter (fun a => decide (¬ a.type = ArgType.command))).map
        ArgNode.allNames).flatten ++
      ((env.args.filter (fun a => decide (a.type = ArgType.command))).map
        ArgNode.allNames).flatten := by
    unfold checkOrderNames
    rw [List.map_append, List.flatten_append]
  rw [horder, insertAll_append]
  rcases h1 : insertAll (((env.args.filter
      (fun a => decide (¬ a.type = ArgType.command))).map ArgNode.allNames).flatten)
      ([], []) with e | fs1
  · rw [h1]
  · rw [h1]
    have h2 := checkBefore_aux2
      (env.args.filter (fun a => decide (a.type = ArgType.command))) fs1
    dsimp only
    rw [List.nil_append, h2]

theorem insertName_mem_error (s : Str) (fs : List Str × List Str) (h : inSets s fs) :
    insertName fs s = Except.error (PError.redefinition s) := by
  unfold insertName
  unfold inSets at h
  by_cases hf : isFlag s = true
  · rw [if_pos hf] at h
    simp [hf, h]
  · rw [if_neg hf] at h
    simp [hf, h]

theorem insertName_ok_mem (s : Str) (fs fs' : List Str × List Str)
    (h : insertName fs s = Except.ok fs') : inSets s fs' := by
  unfold insertName at h
  unfold inSets
  by_cases hf : isFlag s = true
  · simp [hf] at h ⊢
    by_cases hm : s ∈ fs.1
    · simp [hm] at h
    · simp [hm] at h
      rw [← h]
      simp
  · simp [hf] at h ⊢
    by_cases hm : s ∈ fs.2
    · simp [hm] at h
    · simp [hm] at h
      rw [← h]
      simp

theorem insertName_ok_mono (s t : Str) (fs fs' : List Str × List Str)
    (h : insertName fs s = Except.ok fs') (ht : inSets t fs) : inSets t fs' := by
  unfold insertName at h
  unfold inSets at ht ⊢
  by_cases hf : isFlag s = true
  · by_cases hm : s ∈ fs.1
    · simp [hf, hm] at h
    · simp [hf, hm] at h
      by_cases htf : isFlag t = true
      · simp [htf] at ht ⊢
        rw [← h]
        simp [ht]
      · simp [htf] at ht ⊢
        rw [← h]
        exact ht
  · by_cases hm : s ∈ fs.2
    · simp [hf, hm] at h
    · simp [hf, hm] at h
      by_cases htf : isFlag t = true
      · simp [htf] at ht ⊢
        rw [← h]
        exact ht
      · simp [htf] at ht ⊢
        rw [← h]
        simp [ht]

theorem insertAll_ok_mono : ∀ (ns : List Str) (fs fs' : List Str × List Str),
    insertAll ns fs = Except.ok fs' → ∀ t, inSets t fs → inSets t fs' := by
  intro ns
  induction ns with
  | nil =>
    intro fs fs' h t ht
    unfold insertAll at h
    injection h with h
    rw [← h]
    exact ht
  | cons x ns ih =>
    intro fs fs' h t ht
    rw [insertAll_cons] at h
    rcases hx : insertName fs x with e | fs1
    · rw [hx] at h
      exact absurd h (by simp)
    · rw [hx] at h
      exact ih fs1 fs' h t (insertName_ok_mono x t fs fs1 hx ht)

theorem insertAll_ok_fresh : ∀ (ns : List Str) (fs fs' : List Str × List Str),
    insertAll ns fs = Except.ok fs' → ∀ s ∈ ns, ¬ inSets s fs := by
  intro ns
  induction ns with
  | nil =>
    intro fs fs' _ s hs
    simp at hs
  | cons x ns ih =>
    intro fs fs' h s hs
    rw [insertAll_cons] at h
    rcases hx : insertName fs x with e | fs1
    · rw [hx] at h
      exact absurd h (by simp)
    · rw [hx] at h
      rcases List.mem_cons.mp hs with hsx | hsns
      · subst hsx
        intro hmem
        rw [insertName_mem_error s fs hmem] at hx
        exact absurd hx (by simp)
      · intro hmem
        exact ih fs1 fs' h s hsns (insertName_ok_mono x s fs fs1 hx hmem)

theorem insertAll_ok_nodup : ∀ (ns : List Str) (fs fs' : List Str × List Str),
    insertAll ns fs = Except.ok fs' → ns.Nodup := by
  intro ns
  induction ns with
  | nil =>
    intro fs fs' _
    exact List.nodup_nil
  | cons x ns ih =>
    intro fs fs' h
    rw [insertAll_cons] at h
    rcases hx : insertName fs x with e | fs1
    · rw [hx] at h
      exact absurd h (by simp)
    · rw [hx] at h
      refine List.nodup_cons.mpr ⟨?_, ih fs1 fs' h⟩
      intro hmem
      exact insertAll_ok_fresh ns fs1 fs' h x hmem (insertName_ok_mem x fs fs1 hx)

theorem insertAll_error_shape : ∀ (ns : List Str) (fs : List Str × List Str)
    (e : PError), insertAll ns fs = Except.error e →
    ∃ s, e = PError.redefinition s := by
  intro ns
  induction ns with
  | nil =>
    intro fs e h
    rw [show insertAll ([] : List Str) fs = Except.ok fs from rfl] at h
    exact absurd h (by simp)
  | cons x ns ih =>
    intro fs e h
    rw [insertAll_cons] at h
    rcases hx : insertName fs x with e' | fs1
    · rw [hx] at h
      injection h with h
      unfold insertName at hx
      by_cases hf : isFlag x = true
      · simp [hf] at hx
        by_cases hm : x ∈ fs.1
        · simp [hm] at hx
          exact ⟨x, by rw [← h, ← hx]⟩
        · simp [hm] at hx
      · simp [hf] at hx
        by_cases hm : x ∈ fs.2
        · simp [hm] at hx
          exact ⟨x, by rw [← h, ← hx]⟩
        · simp [hm] at hx
    · rw [hx] at h
      exact ih fs1 e h

/-- Claim C5: pre parse validation runs exactly once, before any token is
dispatched: checkCorrectnessBeforeParsing equals the insertion, into the
shared flag and name sets, of every non command node's identifying
strings first and then every command node's, in registration order; any
duplicated name therefore makes parse fail with a redefinition error
with an empty trace, before any node's process is invoked. -/
theorem c5_theorem (env : Env) (tokens : List Str) :
    (checkCorrectnessBeforeParsing env =
      match insertAll (checkOrderNames env) ([], []) with
      | Except.error e => Except.error e
      | Except.ok _ => Except.ok ())
  ∧ (¬ (checkOrderNames env).Nodup →
      ∃ s, parse env tokens = PResult.err (PError.redefinition s) ⟨tokens, none, []⟩) := by
  refine ⟨checkBefore_eq env, ?_⟩
  intro hdup
  rcases hins : insertAll (checkOrderNames env) ([], []) with e | fs'
  · obtain ⟨s, hs⟩ := insertAll_error_shape _ _ _ hins
    refine ⟨s, ?_⟩
    have hcb : checkCorrectnessBeforeParsing env =
        Except.error (PError.redefinition s) := by
      rw [checkBefore_eq env, hins, hs]
    exact parse_pre_error env tokens _ hcb
  · exact absurd (insertAll_ok_nodup _ _ _ hins) hdup

/-- Claim C5 witness: the registry with the name "-a" registered twice
has duplicated check order names, and parsing fails with a redefinition
error before any dispatch, leaving an empty trace. -/
theorem c5_witness :
    ¬ (checkOrderNames envDup).Nodup ∧
    (∃ s, parse envDup [] = PResult.err (PError.redefinition s) ⟨[], none, []⟩) := by
  refine ⟨by decide, ?_⟩
  exact (c5_theorem envDup []).2 (by decide)

theorem dispatch_command_active (env : Env) (st : St) (word : Str) (t c : ArgNode)
    (ha : isArgument word = false) (hf : isFlag word = false)
    (hres : findArgumentNode env st.command word = some t)
    (hty : t.type = ArgType.command) (hcmd : st.command = some c) :
    dispatchWord env word st =
      Except.error (PError.multipleCommands c.name t.name, st) := by
  have hres' : findArgumentNode env (some c) word = some t := by
    rw [← hcmd]
    exact hres
  unfold dispatchWord
  simp [ha, hf, hcmd, hres', hty]

/-- Claim C6 (amended): when a token classified in the command or
positional branch (neither argument form nor flag form) resolves to a
node of type Command while a command is already active, the dispatch
fails with the multiple commands error whose message names both the
active and the new command; a token of argument or flag form resolving
to a Command bypasses this check entirely. -/
theorem c6_amended_theorem (env : Env) (st : St) (word : Str) (t c : ArgNode)
    (ha : isArgument word = false) (hf : isFlag word = false)
    (hres : findArgumentNode env st.command word = some t)
    (hty : t.type = ArgType.command) (hcmd : st.command = some c) :
    dispatchWord env word st =
      Except.error (PError.multipleCommands c.name t.name, st) ∧
    (PError.multipleCommands c.name t.name).message =
      str "Only one command can be specified. But you entered \"" ++ c.name ++
        str "\" and \"" ++ t.name ++ str "\"." :=
  ⟨dispatch_command_active env st word t c ha hf hres hty hcmd, rfl⟩

/-- Claim C6 counterexample: with the command "build" (child "--f")
registered, the tokens "build", "--f" parse successfully even though
"--f" resolves via findArgument to the Command node itself while that
command is already active: the argument form branch processes the
command again instead of raising the multiple commands error. -/
theorem c6_counterexample :
    findArgumentNode envCmd (some cmdBuild) (str "--f") = some cmdBuild ∧
    cmdBuild.type = ArgType.command ∧
    parse envCmd [str "build", str "--f"] =
      PResult.ok ⟨[], some cmdBuild, [(cmdBuild, none), (cmdBuild, none)]⟩ := by
  refine ⟨rfl, rfl, ?_⟩
  rw [parse_after_pre envCmd _ rfl]
  rw [parseLoop_cons_ok envCmd (str "build") [str "--f"] none []
    ⟨[str "--f"], some cmdBuild, [(cmdBuild, none)]⟩ rfl]
  rw [parseLoop_cons_ok envCmd (str "--f") [] (some cmdBuild) [(cmdBuild, none)]
    ⟨[], some cmdBuild, [(cmdBuild, none), (cmdBuild, none)]⟩ rfl]
  rw [parseLoop_nil]
  rfl

/-- Claim C6 (amended) witness: a second "build" token while "build" is
active fails with the multiple commands error naming both. -/
theorem c6_amended_witness :
    findArgumentNode envCmd (some cmdBuild) (str "build") = some cmdBuild ∧
    dispatchWord envCmd (str "build") ⟨[], some cmdBuild, [(cmdBuild, none)]⟩ =
      Except.error (PError.multipleCommands (str "build") (str "build"),
        ⟨[], some cmdBuild, [(cmdBuild, none)]⟩) := by
  refine ⟨rfl, ?_⟩
  exact (c6_amended_theorem envCmd ⟨[], some cmdBuild, [(cmdBuild, none)]⟩
    (str "build") cmdBuild cmdBuild rfl rfl rfl rfl rfl).1

theorem foldlM_unit_ok (f : ArgNode → Except PError Unit) :
    ∀ (l : List ArgNode), (List.foldlM (fun _ a => f a) () l = Except.ok ()) ↔
      ∀ a ∈ l, f a = Except.ok () := by
  intro l
  induction l with
  | nil =>
    constructor
    · intro _ a ha
      simp at ha
    · intro _
      rfl
  | cons a l ih =>
    rw [List.foldlM_cons]
    rcases hf : f a with e | u
    · have hb : ((Except.error e : Except PError Unit) >>= fun x =>
          List.foldlM (fun _ a => f a) x l) = Except.error e := rfl
      constructor
      · intro h
        rw [hb] at h
        exact absurd h (by simp)
      · intro h
        have ha := h a (by simp)
        rw [hf] at ha
        exact absurd ha (by simp)
    · cases u
      have hb : ((Except.ok () : Except PError Unit) >>= fun x =>
          List.foldlM (fun _ a => f a) x l) =
          List.foldlM (fun _ a => f a) () l := rfl
      rw [hb]
      constructor
      · intro h b hb'
        rcases List.mem_cons.mp hb' with hbx | hbl
        · subst hbx
          exact hf
        · exact (ih.mp h) b hbl
      · intro h
        exact ih.mpr (fun b hb' => h b (by simp [hb']))

/-- Claim C7: after the token loop completes, post parse validation runs
exactly once: parse reduces to checkCorrectnessAfterParsing on the final
state; when every top level node passes its own check, the engine was
built with the command is required option, and no command was activated,
parse fails with the missing command error; and a successful parse
implies every node's check passed and, under the option, that a command
is active. -/
theorem c7_theorem (env : Env) (tokens : List Str) (st : St)
    (h1 : checkCorrectnessBeforeParsing env = Except.ok ())
    (h2 : parseLoop env ⟨tokens, none, []⟩ = PResult.ok st) :
    (parse env tokens =
      match checkCorrectnessAfterParsing env st with
      | Except.error e => PResult.err e st
      | Except.ok _ => PResult.ok st)
  ∧ ((∀ a ∈ env.args, nodeCheckAfter st a = Except.ok ()) →
      env.opt = CmdLineOpts.commandIsRequired → st.command = none →
      parse env tokens = PResult.err PError.missingCommand st)
  ∧ (∀ st', parse env tokens = PResult.ok st' →
      st' = st ∧ (∀ a ∈ env.args, nodeCheckAfter st a = Except.ok ()) ∧
      (env.opt = CmdLineOpts.commandIsRequired → st.command ≠ none)) := by
  have hparse : parse env tokens =
      match checkCorrectnessAfterParsing env st with
      | Except.error e => PResult.err e st
      | Except.ok _ => PResult.ok st := by
    rw [parse_after_pre env tokens h1, h2]
  refine ⟨hparse, ?_, ?_⟩
  · intro hall hopt hcmd
    have hfold : List.foldlM (fun _ a => nodeCheckAfter st a) () env.args =
        Except.ok () := (foldlM_unit_ok (nodeCheckAfter st) env.args).mpr hall
    have hca : checkCorrectnessAfterParsing env st =
        Except.error PError.missingCommand := by
      unfold checkCorrectnessAfterParsing
      rw [hfold]
      simp [hopt, hcmd]
    rw [hparse, hca]
  · intro st' hok
    rw [hparse] at hok
    rcases hca : checkCorrectnessAfterParsing env st with e | u
    · rw [hca] at hok
      exact absurd hok (by simp)
    · cases u
      rw [hca] at hok
      have hst : st' = st := by
        injection hok with hok
        exact hok.symm
      unfold checkCorrectnessAfterParsing at hca
      rcases hfold : List.foldlM (fun _ a => nodeCheckAfter st a) () env.args
        with e | u2
      · rw [hfold] at hca
        exact absurd hca (by simp)
      · cases u2
        rw [hfold] at hca
        have hall := (foldlM_unit_ok (nodeCheckAfter st) env.args).mp hfold
        refine ⟨hst, hall, ?_⟩
        intro hreq hnone
        rw [if_pos ⟨hreq, hnone⟩] at hca
        exact absurd hca (by simp)

/-- Claim C7 witness: with only the flag "-v" registered and commands
mandated, parsing "-v" completes the loop and then fails post parse with
the missing command error. -/
theorem c7_witness :
    parse envReq [str "-v"] =
      PResult.err PError.missingCommand ⟨[], none, [(flagV, none)]⟩ := by
  have h2 : parseLoop envReq ⟨[str "-v"], none, []⟩ =
      PResult.ok ⟨[], none, [(flagV, none)]⟩ := by
    rw [parseLoop_cons_ok envReq (str "-v") [] none []
      ⟨[], none, [(flagV, none)]⟩ rfl]
    exact parseLoop_nil envReq none [(flagV, none)]
  exact (c7_theorem envReq [str "-v"] ⟨[], none, [(flagV, none)]⟩ rfl h2).2.1
    (by
      intro a ha
      have ha' : a = flagV := by simpa [envReq] using ha
      rw [ha']
      rfl)
    rfl rfl

theorem formatCorrect_aux :
    ∀ (tl : List Str) (acc : Str),
      (tl.foldl (fun (p : Str × Bool) nm =>
        ((if p.2 then p.1 else p.1 ++ str " or ") ++ nm, false)) (acc, false)).1 =
      acc ++ (tl.map (fun n => str " or " ++ n)).flatten := by
  intro tl
  induction tl with
  | nil =>
    intro acc
    simp
  | cons n tl ih =>
    intro acc
    rw [List.foldl_cons]
    rw [show (((if ((acc, false) : Str × Bool).2 then ((acc, false) : Str × Bool).1
      else ((acc, false) : Str × Bool).1 ++ str " or ") ++ n, false) : Str × Bool) =
      (((acc ++ str " or ") ++ n : Str), false) from rfl]
    rw [ih ((acc ++ str " or ") ++ n)]
    simp [List.append_assoc]

theorem formatCorrect_join (hd : Str) (tl : List Str) :
    formatCorrectNamesString (hd :: tl) =
      hd ++ (tl.map (fun n => str " or " ++ n)).flatten := by
  unfold formatCorrectNamesString
  rw [if_neg (by simp)]
  rw [List.foldl_cons]
  rw [show (((if ((([] : Str), true) : Str × Bool).2 then ((([] : Str), true) : Str × Bool).1
    else ((([] : Str), true) : Str × Bool).1 ++ str " or ") ++ hd, false) : Str × Bool) =
    ((hd : Str), false) from rfl]
  exact formatCorrect_aux tl hd

/-- Claim C9: an unresolved token outside a flag combo always raises an
error: the misspelling search folds over every registered node in
registration order, collecting all matches into one suggestion list,
one block per node in that order; the raised error carries those
suggestions when the list is nonempty and is the plain unknown argument
error otherwise; and the suggestion string joins the names with " or ". -/
theorem c9_theorem (env : Env) (st : St) (word : Str)
    (hf : isFlag word = false)
    (hres : findArgumentNode env st.command word = none) :
    (cmdIsMisspelledName env st.command word =
      (!(suggestionsList env word).isEmpty, suggestionsList env word))
  ∧ (suggestionsList env word =
      (env.args.map (fun a => a.misspelledMatches word)).flatten)
  ∧ (dispatchWord env word st =
      Except.error (printInfoAboutUnknownArgument env st.command word, st))
  ∧ (printInfoAboutUnknownArgument env st.command word =
      PError.unknownArgument word
        (if (suggestionsList env word).isEmpty then [] else suggestionsList env word))
  ∧ (∀ (hd : Str) (tl : List Str), formatCorrectNamesString (hd :: tl) =
      hd ++ (tl.map (fun n => str " or " ++ n)).flatten) :=
  ⟨cmdMisspelled_eq env st.command word, rfl,
    dispatch_unresolved env st word hf hres,
    printInfo_eq env st.command word,
    formatCorrect_join⟩

/-- Claim C9 witness: the unresolved argument form token "--x" on the
registry with flag "-a" raises the suggestion bearing unknown argument
error with the single suggestion "-a". -/
theorem c9_witness :
    dispatchWord envA (str "--x") ⟨[], none, []⟩ =
      Except.error (printInfoAboutUnknownArgument envA none (str "--x"),
        ⟨[], none, []⟩) ∧
    printInfoAboutUnknownArgument envA none (str "--x") =
      PError.unknownArgument (str "--x") [str "-a"] ∧
    formatCorrectNamesString [str "-a"] = str "-a" := by
  have h := c9_theorem envA ⟨[], none, []⟩ (str "--x") rfl rfl
  exact ⟨h.2.2.1, rfl, rfl⟩

theorem find_first_some (p : ArgNode → Bool) :
    ∀ (l1 : List ArgNode) (x : ArgNode) (l2 : List ArgNode),
      (∀ a ∈ l1, p a = false) → p x = true →
      (l1 ++ x :: l2).find? p = some x := by
  intro l1
  induction l1 with
  | nil =>
    intro x l2 _ hx
    rw [List.nil_append]
    exact List.find?_cons_of_pos _ hx
  | cons b l1 ih =>
    intro x l2 hall hx
    rw [List.cons_append, List.find?_cons_of_neg _ (by simp [hall b (by simp)])]
    exact ih x l2 (fun a ha => hall a (by simp [ha])) hx

/-- Claim C10: CmdLine::findArgument returns, for the first top level
node whose subtree matches the name, the node itself when it is a
Command — even when the match was on a child's name — and otherwise the
node level lookup result; the active command's findChild is consulted
only when no top level node matches, and the result is null when
neither yields a match. -/
theorem c10_theorem (env : Env) (cmd : Option ArgNode) (nm : Str) :
    (∀ (l1 : List ArgNode) (x : ArgNode) (l2 : List ArgNode),
      env.args = l1 ++ x :: l2 →
      (∀ a ∈ l1, a.findArgument nm = none) →
      (x.findArgument nm).isSome = true →
      ((x.type = ArgType.command → findArgumentNode env cmd nm = some x) ∧
       (¬ x.type = ArgType.command →
         findArgumentNode env cmd nm = x.findArgument nm)))
  ∧ ((∀ a ∈ env.args, a.findArgument nm = none) →
      findArgumentNode env cmd nm =
        (match cmd with
         | some c => c.findChild nm
         | none => none)) := by
  constructor
  · intro l1 x l2 hsplit hnone hx
    have hfind : env.args.find? (fun a => (a.findArgument nm).isSome) = some x := by
      rw [hsplit]
      exact find_first_some _ l1 x l2
        (fun a ha => by rw [hnone a ha]; rfl) hx
    constructor
    · intro hty
      unfold findArgumentNode
      rw [hfind]
      simp [hty]
    · intro hty
      unfold findArgumentNode
      rw [hfind]
      simp [hty]
  · intro hall
    have hfind : env.args.find? (fun a => (a.findArgument nm).isSome) = none :=
      List.find?_eq_none.mpr (fun a ha => by rw [hall a ha]; simp)
    unfold findArgumentNode
    rw [hfind]

/-- Claim C10 witness: the name "--f" is not among the command "build"
own names but matches its child, and CmdLine::findArgument returns the
command node itself. -/
theorem c10_witness :
    cmdBuild.findArgument (str "--f") = some childF ∧
    (str "--f") ∉ cmdBuild.names ∧
    findArgumentNode envCmd none (str "--f") = some cmdBuild := by
  refine ⟨rfl, by decide, ?_⟩
  exact ((c10_theorem envCmd none (str "--f")).1 [] cmdBuild [] rfl
    (by
      intro a ha
      simp at ha)
    rfl).1 rfl

end Args
